import Mathlib

/-!
Verification of the path-grammar decomposition and recursive node-synthesis
engine of the `xml` module (`library/xml.py`).

The Python source is embedded shallowly:
* strings are `String` / `List Char`;
* the regular expressions `_re_splitSimpleLast`, `_re_splitSimpleLastEqValue`,
  `_re_splitSimpleAttrLast`, `_re_splitSimpleAttrLastEqValue`,
  `_re_splitSubLast`, `_re_splitOnlyEqValue` are modelled as deterministic
  matchers that reproduce Python's greedy leftmost `^(.*)/...$` backtracking:
  candidate splits at `'/'` are tried from the rightmost one leftwards, and a
  `(.*)` group never spans a newline (Python `.` does not match `'\n'`);
* the lxml element tree is an inductive `XNode` (tag, attributes, optional
  text, ordered children); in-place mutation becomes explicit state passing,
  nodes are addressed by child-index paths;
* `module.fail_json` (which aborts the request) becomes `Except.error`.
-/

namespace AnsibleXml

/-- Python `str.strip()` whitespace set: space, tab, newline, carriage return,
vertical tab, form feed. -/
def isPySpace (c : Char) : Bool :=
  c == ' ' || c == '\t' || c == '\n' || c == '\r' || c == '\x0b' || c == '\x0c'

/-- Python `s.strip()` on a character list: drop `isPySpace` characters from
both ends. -/
def pyStrip (l : List Char) : List Char :=
  ((l.dropWhile isPySpace).reverse.dropWhile isPySpace).reverse

/-- A `(.*)` group in the Python regexes matches any character except a
newline. -/
def noNl (l : List Char) : Bool := l.all (fun c => c != '\n')

/-- `listStartsWith l p` : `p` is an initial run of `l`. -/
def listStartsWith : List Char → List Char → Bool
  | _, [] => true
  | [], _ :: _ => false
  | a :: as, b :: bs => a == b && listStartsWith as bs

/-- Python `s.split(" and ")`: scan left to right, cutting at each
non-overlapping occurrence of the five-character separator. -/
def splitAnd : List Char → List (List Char)
  | [] => [[]]
  | ' ' :: 'a' :: 'n' :: 'd' :: ' ' :: rest => [] :: splitAnd rest
  | c :: cs =>
    match splitAnd cs with
    | [] => [[c]]
    | h :: t => (c :: h) :: t

/-- First character class of `_ident`: `[a-zA-Z-]`. -/
def isIdentFirst (c : Char) : Bool := c.isAlpha || c == '-'

/-- Later character class of `_ident`: `[a-zA-Z0-9_\-\.]`. -/
def isIdentRest (c : Char) : Bool := c.isAlphanum || c == '_' || c == '-' || c == '.'

/-- Full match of `_ident = [a-zA-Z-][a-zA-Z0-9_\-\.]*`. -/
def isIdent : List Char → Bool
  | [] => false
  | c :: cs => isIdentFirst c && cs.all isIdentRest

/-- Full match of `_nsIdent = _ident | _ident ":" _ident` (no colon, or exactly
one colon separating two idents). -/
def isNsIdent (l : List Char) : Bool :=
  isIdent l ||
    (match l.dropWhile (fun c => c != ':') with
     | ':' :: rest => isIdent (l.takeWhile (fun c => c != ':')) && isIdent rest
     | _ => false)

/-- Full match of `_xpstr = ('(?:.*)'|"(?:.*)")`: at least two characters, the
first and last are the same quote character, and the interior (matched by
`(.*)`) contains no newline. -/
def isXpStr : List Char → Bool
  | [] => false
  | c :: rest =>
    (c == '\'' || c == '"') &&
      (match rest.getLast? with
       | some d => d == c
       | none => false) &&
      noNl rest.dropLast

/-- `_extract_xpstr`: strip the surrounding quotes (`g[1:-1]`). -/
def unquote (l : List Char) : List Char := (l.drop 1).dropLast

/-- The second member of a `(rawSegmentText, value)` pair produced by
`split_xpath_last`: Python uses `None`, a string, or (for the subscripted
rule) a list of predicate strings. -/
inductive EoaValue where
  | none
  | str (s : String)
  | list (preds : List String)
deriving DecidableEq, Repr

/-- All decompositions `s = a ++ '/' :: t`, ordered by decreasing length of
`a`, i.e. the order in which a greedy `^(.*)/...$` tries them. -/
def splitsDesc : List Char → List (List Char × List Char)
  | [] => []
  | c :: cs =>
    ((splitsDesc cs).map (fun p => (c :: p.1, p.2))) ++
      (if c = '/' then [([], cs)] else [])

/-- Run a trailing-segment matcher the way a greedy anchored `^(.*)/...$`
regex does: try the candidate `'/'` splits from the rightmost one leftwards,
skipping splits whose `(.*)` prefix would have to span a newline, and return
the first success together with that prefix. -/
def reMatch (tf : List Char → Option (String × EoaValue)) (s : List Char) :
    Option (List Char × (String × EoaValue)) :=
  ((splitsDesc s).filter (fun p => noNl p.1)).findSome?
    (fun p => (tf p.2).map (fun seg => (p.1, seg)))

/-- Trailing segment of `_re_splitSimpleLast`: a bare `_nsIdent`. -/
def tailSimpleLast (t : List Char) : Option (String × EoaValue) :=
  if isNsIdent t then some (String.mk t, EoaValue.none) else none

/-- The literal `"/text()="`. -/
def textEqAfterSlash : List Char := ['/', 't', 'e', 'x', 't', '(', ')', '=']

/-- The literal `"text()="`. -/
def textEqBare : List Char := ['t', 'e', 'x', 't', '(', ')', '=']

/-- Trailing segment of `_re_splitSimpleLastEqValue`:
`_nsIdent ++ "/text()=" ++ _xpstr`. -/
def tailSimpleLastEqValue (t : List Char) : Option (String × EoaValue) :=
  let i := t.takeWhile (fun c => c != '/')
  let rest := t.dropWhile (fun c => c != '/')
  if isNsIdent i && listStartsWith rest textEqAfterSlash && isXpStr (rest.drop 8) then
    some (String.mk i, EoaValue.str (String.mk (unquote (rest.drop 8))))
  else none

/-- Trailing segment of `_re_splitSimpleAttrLast`: `'@' ++ _nsIdent`. -/
def tailSimpleAttrLast (t : List Char) : Option (String × EoaValue) :=
  match t with
  | '@' :: r => if isNsIdent r then some (String.mk ('@' :: r), EoaValue.none) else none
  | _ => none

/-- Trailing segment of `_re_splitSimpleAttrLastEqValue`:
`'@' ++ _nsIdent ++ "=" ++ _xpstr`. -/
def tailSimpleAttrLastEqValue (t : List Char) : Option (String × EoaValue) :=
  match t with
  | '@' :: r =>
    let i := r.takeWhile (fun c => c != '=')
    let rest := r.dropWhile (fun c => c != '=')
    (match rest with
     | '=' :: q =>
       if isNsIdent i && isXpStr q then
         some (String.mk ('@' :: i), EoaValue.str (String.mk (unquote q)))
       else none
     | _ => none)
  | _ => none

/-- Trailing segment of `_re_splitSubLast`:
`_nsIdent ++ "[" ++ (.*) ++ "]"`; the bracket content is split on the literal
`" and "` and each predicate is `strip`ped; the element name is returned with
a leading `'/'` exactly as the source does (`'/' + m.group(2)`). -/
def tailSubLast (t : List Char) : Option (String × EoaValue) :=
  let i := t.takeWhile (fun c => c != '[')
  let rest := t.dropWhile (fun c => c != '[')
  match rest with
  | '[' :: r2 =>
    if isNsIdent i && (r2.getLast? == some ']') && noNl r2.dropLast then
      some (String.mk ('/' :: i),
        EoaValue.list ((splitAnd r2.dropLast).map (fun p => String.mk (pyStrip p))))
    else none
  | _ => none

/-- Trailing segment of `_re_splitOnlyEqValue`: `"text()=" ++ _xpstr` with no
element name; the raw segment text is the empty string. -/
def tailOnlyEqValue (t : List Char) : Option (String × EoaValue) :=
  if listStartsWith t textEqBare && isXpStr (t.drop 7) then
    some ("", EoaValue.str (String.mk (unquote (t.drop 7))))
  else none

/-- Match of `_re_splitSimpleLast` against a (stripped) selector. -/
def re_splitSimpleLast (s : List Char) : Option (List Char × (String × EoaValue)) :=
  reMatch tailSimpleLast s

/-- Match of `_re_splitSimpleLastEqValue`. -/
def re_splitSimpleLastEqValue (s : List Char) : Option (List Char × (String × EoaValue)) :=
  reMatch tailSimpleLastEqValue s

/-- Match of `_re_splitSimpleAttrLast`. -/
def re_splitSimpleAttrLast (s : List Char) : Option (List Char × (String × EoaValue)) :=
  reMatch tailSimpleAttrLast s

/-- Match of `_re_splitSimpleAttrLastEqValue`. -/
def re_splitSimpleAttrLastEqValue (s : List Char) : Option (List Char × (String × EoaValue)) :=
  reMatch tailSimpleAttrLastEqValue s

/-- Match of `_re_splitSubLast`. -/
def re_splitSubLast (s : List Char) : Option (List Char × (String × EoaValue)) :=
  reMatch tailSubLast s

/-- Match of `_re_splitOnlyEqValue`. -/
def re_splitOnlyEqValue (s : List Char) : Option (List Char × (String × EoaValue)) :=
  reMatch tailOnlyEqValue s

/-- `split_xpath_last(xpath)`: strip the selector, then try the six grammar
rules in the source's priority order; on success return the prefix and a
one-element segment list, otherwise the (stripped) selector itself and the
empty list. -/
def split_xpath_last (xpath : String) : String × List (String × EoaValue) :=
  let s := pyStrip xpath.data
  match re_splitSimpleLast s with
  | some r => (String.mk r.1, [r.2])
  | none =>
  match re_splitSimpleLastEqValue s with
  | some r => (String.mk r.1, [r.2])
  | none =>
  match re_splitSimpleAttrLast s with
  | some r => (String.mk r.1, [r.2])
  | none =>
  match re_splitSimpleAttrLastEqValue s with
  | some r => (String.mk r.1, [r.2])
  | none =>
  match re_splitSubLast s with
  | some r => (String.mk r.1, [r.2])
  | none =>
  match re_splitOnlyEqValue s with
  | some r => (String.mk r.1, [r.2])
  | none => (String.mk s, [])

/-! ## The document tree -/

/-- An lxml element: qualified tag name, attribute mapping (insertion
ordered), optional text content, ordered child elements.  A fresh
`etree.Element(name)` has `text = none`, no attributes, no children. -/
inductive XNode where
  | mk (tag : String) (attrib : List (String × String)) (text : Option String)
      (children : List XNode)

/-- Tag accessor. -/
def XNode.tag : XNode → String
  | .mk t _ _ _ => t

/-- Attribute-mapping accessor. -/
def XNode.attrib : XNode → List (String × String)
  | .mk _ a _ _ => a

/-- Text accessor. -/
def XNode.text : XNode → Option String
  | .mk _ _ tx _ => tx

/-- Children accessor. -/
def XNode.children : XNode → List XNode
  | .mk _ _ _ cs => cs

/-- Replace the child list. -/
def XNode.withChildren : XNode → List XNode → XNode
  | .mk t a tx _, cs => .mk t a tx cs

/-- Replace the text. -/
def XNode.withText : XNode → Option String → XNode
  | .mk t a _ cs, tx => .mk t a tx cs

/-- Replace the attribute mapping. -/
def XNode.withAttrib : XNode → List (String × String) → XNode
  | .mk t _ tx cs, a => .mk t a tx cs

/-- `etree.Element(name)`: the single node `child_to_element` builds from a
plain string spec (fresh element, no text, no attributes, no children). -/
def makeElement (name : String) : XNode := .mk name [] none []

/-- `element.attrib[k]` lookup (`k in element.attrib` iff `isSome`). -/
def lookupAttr (l : List (String × String)) (k : String) : Option String :=
  match l with
  | [] => Option.none
  | kv :: rest => if kv.1 = k then some kv.2 else lookupAttr rest k

/-- `element.attrib[k] = v`: overwrite in place if the key exists, else append
(lxml keeps the position of an overwritten attribute). -/
def setAttrKV (l : List (String × String)) (k v : String) : List (String × String) :=
  match l with
  | [] => [(k, v)]
  | kv :: rest => if kv.1 = k then (k, v) :: rest else kv :: setAttrKV rest k v

/-- `element.attrib.pop(k)`: remove the key. -/
def removeAttrKV (l : List (String × String)) (k : String) : List (String × String) :=
  match l with
  | [] => []
  | kv :: rest => if kv.1 = k then rest else kv :: removeAttrKV rest k

/-- Node addressed by a child-index path from the root. -/
def getAtPath : XNode → List Nat → Option XNode
  | n, [] => some n
  | n, i :: p =>
    match n.children.get? i with
    | some c => getAtPath c p
    | none => Option.none

/-- Rewrite the node at a child-index path (identity when the path dangles);
this is the pure counterpart of mutating an lxml node in place. -/
def updateAtPath (n : XNode) : List Nat → (XNode → XNode) → XNode
  | [], f => f n
  | i :: p, f =>
    match n.children.get? i with
    | some c => n.withChildren (n.children.set i (updateAtPath c p f))
    | none => n

/-- `node.extend([nk])` for a single new child. -/
def appendChild (nk : XNode) (n : XNode) : XNode :=
  n.withChildren (n.children ++ [nk])

/-- Attribute list in serialized form: `' k="v"'` for each pair, in order. -/
def attrsToString (l : List (String × String)) : String :=
  l.foldl (fun acc kv => acc ++ " " ++ kv.1 ++ "=\"" ++ kv.2 ++ "\"") ""

mutual
/-- Modelled from the spec: the external canonical serialization (§6,
`lxml.etree.tostring`) — a stable, deterministic byte form of a node subtree,
used by the Children Reconciler for positional comparisons.  Empty elements
(no text, no children) self-close. -/
def tostring : XNode → String
  | .mk tag attrib text children =>
    match text, children with
    | Option.none, [] => "<" ++ tag ++ attrsToString attrib ++ "/>"
    | _, _ =>
      "<" ++ tag ++ attrsToString attrib ++ ">" ++
        (match text with | some t => t | Option.none => "") ++
        tostringList children ++ "</" ++ tag ++ ">"

/-- Concatenated serialization of a list of nodes. -/
def tostringList : List XNode → String
  | [] => ""
  | c :: cs => tostring c ++ tostringList cs
end

/-! ## The external evaluator -/

/-- One match returned by the evaluator: an element (addressed by its path)
or an attribute string result (`lxml.etree._ElementStringResult`) remembering
its owning element and key, as `delete_xpath_target` uses via `getparent()` /
`attrname`. -/
inductive XResult where
  | elem (path : List Nat)
  | attr (owner : List Nat) (name : String) (value : String)
deriving DecidableEq, Repr

/-- Split a character list on `'/'`. -/
def splitSlash : List Char → List (List Char)
  | [] => [[]]
  | c :: cs =>
    if c = '/' then [] :: splitSlash cs
    else
      match splitSlash cs with
      | [] => [[c]]
      | h :: t => (c :: h) :: t

/-- One location step applied to a set of element contexts: keep the children
whose tag equals the step name, extending each path. -/
def stepChildren (step : String) (ctxs : List (XNode × List Nat)) :
    List (XNode × List Nat) :=
  (ctxs.map (fun np =>
    (np.1.children.enum.filterMap (fun ci =>
      if ci.2.tag = step then some (ci.2, np.2 ++ [ci.1]) else Option.none)))).flatten

/-- Walk the remaining steps of an absolute path over the current element
contexts; a final `@name` step selects attribute string results. -/
def evalChain : List (List Char) → List (XNode × List Nat) → List XResult
  | [], ctxs => ctxs.map (fun np => XResult.elem np.2)
  | step :: rest, ctxs =>
    match step with
    | '@' :: name =>
      if rest.isEmpty then
        ctxs.filterMap (fun np =>
          match lookupAttr np.1.attrib (String.mk name) with
          | some v => some (XResult.attr np.2 (String.mk name) v)
          | Option.none => Option.none)
      else []
    | _ => evalChain rest (stepChildren (String.mk step) ctxs)

/-- Modelled from the spec: the external Evaluator (§6,
`tree.xpath(selector, namespaces=...)`) restricted to the selector shapes the
verified operations exercise — the context selector `"."` and absolute chains
of element steps with an optional final `@name` attribute step.  Selector
forms outside this fragment (predicates, `text()` comparisons, relative
names, namespace prefixes) yield no matches here. -/
def evaluate (root : XNode) (xpath : String) : List XResult :=
  if xpath = "." then [XResult.elem []]
  else
    match xpath.data with
    | '/' :: rest =>
      (match splitSlash rest with
       | [] => []
       | s1 :: srest =>
         match s1 with
         | '@' :: _ => []
         | _ => if root.tag = String.mk s1 then evalChain srest [(root, [])] else [])
    | _ => []

/-- `xpath_matches`: the match list is non-empty. -/
def xpath_matches (tree : XNode) (xpath : String) : Bool :=
  !(evaluate tree xpath).isEmpty

/-- `is_node`: something matches and the first match is an element
(`isinstance(match[0], lxml.etree._Element)`). -/
def is_node (tree : XNode) (xpath : String) : Bool :=
  xpath_matches tree xpath &&
    (match evaluate tree xpath with
     | XResult.elem _ :: _ => true
     | _ => false)

/-- `is_attribute`: something matches and the first match is an attribute
string result. -/
def is_attribute (tree : XNode) (xpath : String) : Bool :=
  xpath_matches tree xpath &&
    (match evaluate tree xpath with
     | XResult.attr _ _ _ :: _ => true
     | _ => false)

/-! ## Namespace resolution and the Mutation Applicator -/

/-- `nsnameToClark(name, namespaces)`: a `p:local` name is resolved through
the namespace map to Clark form; a missing prefix raises (`KeyError`), and a
name with more than one colon fails Python's 2-tuple unpacking. -/
def nsnameToClark (name : String) (namespaces : List (String × String)) :
    Except String String :=
  if name.data.contains ':' then
    match name.splitOn ":" with
    | [nsname, rawname] =>
      (match lookupAttr namespaces nsname with
       | some uri => Except.ok ("\x7b" ++ uri ++ "\x7d" ++ rawname)
       | Option.none => Except.error ("KeyError: " ++ nsname))
    | _ => Except.error ("ValueError: too many values to unpack: " ++ name)
  else Except.ok name

/-- Python truthiness of an `eoa_value` (`if eoa_value:`): `None`, `""` and
`[]` are falsy. -/
def eoaTruthy : EoaValue → Bool
  | EoaValue.none => false
  | EoaValue.str s => s ≠ ""
  | EoaValue.list l => l ≠ []

/-- The text content a segment value assigns (`nk.text = eoa_value` /
`node.text = eoa_value`): a string value sets that string, `None` sets no
text.  A list value cannot reach these assignments from `split_xpath_last`'s
outputs. -/
def eoaTextValue : EoaValue → Option String
  | EoaValue.str s => some s
  | _ => Option.none

/-- Python `!=` between an optional text (`None` or a string) and an
`eoa_value`: values of different types are unequal, strings compare as
strings, `None` equals only `None`.  In particular `"" != None` is true —
the comparison the attribute branch performs. -/
def pyNe : Option String → EoaValue → Bool
  | some s, EoaValue.str u => s ≠ u
  | Option.none, EoaValue.str _ => true
  | some _, EoaValue.none => true
  | Option.none, EoaValue.none => false
  | _, EoaValue.list _ => true

/-- `value = "" if eoa_value is None else eoa_value` in the attribute
branch. -/
def eoaAttrValue : EoaValue → String
  | EoaValue.str s => s
  | _ => ""

/-- The element paths among a match list (the branches of
`check_or_make_target` iterate `tree.xpath(inner_xpath)`, which yields only
element results for the prefix selectors the parser produces). -/
def elemPaths (rs : List XResult) : List (List Nat) :=
  rs.filterMap (fun r =>
    match r with
    | XResult.elem p => some p
    | XResult.attr _ _ _ => Option.none)

/-- The predicate list carried by a segment value (`for subexpr in
eoa_value`); only the subscripted rule produces one. -/
def chPreds (ch : String × EoaValue) : List String :=
  match ch.2 with
  | EoaValue.list l => l
  | _ => []

/-- One `(eoa, eoa_value)` iteration of `check_or_make_target`'s
`for (eoa, eoa_value) in changes:` loop, with the recursive call abstracted
as `recur` (it is invoked on a freshly built element and a `"./"`-prefixed
predicate sub-selector).  State is `(tree, changed)`.

Branches, keyed on `eoa` exactly as the source tests them:
* a name not starting with `'@'` or `'/'`: implicit element creation —
  build one new element (with text when the value is truthy) and append it
  to every context node unless in check mode; `changed` is set per context
  node regardless of check mode;
* a leading `'/'`: subscripted element — per context node, build the element,
  run the Path Synthesizer on each predicate relative to it, attach it
  unless in check mode, and set `changed`;
* the empty string: text value — per context node, compare and (without any
  check-mode guard, as in the source) set the text;
* a leading `'@'`: attribute — per context node compute `changing`, and only
  when not in check mode both record `changed` and write the attribute.

lxml's `node.extend` moves a shared node between successive context nodes;
with value semantics each context node receives the new element, which
coincides with the source behavior whenever the context is a single node —
the situation every theorem below uses. -/
def applyChange (recur : XNode → String → Except String (XNode × Bool))
    (cm : Bool) (inner : String) (ns : List (String × String))
    (st : XNode × Bool) (ch : String × EoaValue) : Except String (XNode × Bool) :=
  match ch.1.data with
  | [] =>
    let paths := elemPaths (evaluate st.1 inner)
    Except.ok (paths.foldl (fun tc p =>
      match getAtPath tc.1 p with
      | some nd =>
        if pyNe nd.text ch.2 then
          (updateAtPath tc.1 p (fun m => m.withText (eoaTextValue ch.2)), true)
        else tc
      | Option.none => tc) st)
  | c :: _ =>
    if c ≠ '@' ∧ c ≠ '/' then do
      let clark ← nsnameToClark ch.1 ns
      let nk := if eoaTruthy ch.2 then (makeElement clark).withText (eoaTextValue ch.2)
                else makeElement clark
      let paths := elemPaths (evaluate st.1 inner)
      let tree' := if cm then st.1
                   else paths.foldl (fun t p => updateAtPath t p (appendChild nk)) st.1
      Except.ok (tree', st.2 || !paths.isEmpty)
    else if c = '/' then do
      let clark ← nsnameToClark (ch.1.drop 1) ns
      let paths := elemPaths (evaluate st.1 inner)
      let tree' ← paths.foldlM (fun t p => do
        let nk' ← (chPreds ch).foldlM
          (fun nk sub => Except.map Prod.fst (recur nk ("./" ++ sub))) (makeElement clark)
        Except.ok (if cm then t else updateAtPath t p (appendChild nk'))) st.1
      Except.ok (tree', st.2 || !paths.isEmpty)
    else do
      let attrName ← nsnameToClark (ch.1.drop 1) ns
      let paths := elemPaths (evaluate st.1 inner)
      Except.ok (paths.foldl (fun tc p =>
        match getAtPath tc.1 p with
        | some el =>
          let changing : Bool :=
            match lookupAttr el.attrib attrName with
            | Option.none => true
            | some cur => pyNe (some cur) ch.2
          if !cm && changing then
            (updateAtPath tc.1 p
              (fun m => m.withAttrib (setAttrKV m.attrib attrName (eoaAttrValue ch.2))),
             tc.2 || changing)
          else tc
        | Option.none => tc) st)

/-- The decomposition-failure message of `check_or_make_target` (the source
also embeds a pretty-printed dump of the tree). -/
def cantProcessMsg (xpath : String) (tree : XNode) : String :=
  "Can't process Xpath " ++ xpath ++ " in order to spawn nodes! tree is " ++ tostring tree

/-- `check_or_make_target(module, tree, xpath, namespaces)` with an explicit
recursion budget (every recursive call strictly shrinks the selector string,
so any budget beyond the selector length gives the same result — proved
below).  Split the trailing segment; if the parser made no progress, fail
fatally; otherwise recursively ensure the prefix when it does not resolve
yet, re-test it, and run the segment changes against every prefix match. -/
def comt : Nat → Bool → XNode → String → List (String × String) →
    Except String (XNode × Bool)
  | 0, _, _, _, _ => Except.error "recursion budget exhausted"
  | f + 1, cm, tree, xpath, ns =>
    if (split_xpath_last xpath).1 = xpath then Except.error (cantProcessMsg xpath tree)
    else
      Except.bind
        (if is_node tree (split_xpath_last xpath).1 then Except.ok (tree, false)
         else comt f cm tree (split_xpath_last xpath).1 ns)
        (fun tc =>
          if is_node tc.1 (split_xpath_last xpath).1 && !(split_xpath_last xpath).2.isEmpty then
            (split_xpath_last xpath).2.foldlM
              (applyChange (fun t x => comt f cm t x ns) cm (split_xpath_last xpath).1 ns) tc
          else Except.ok tc)

/-- `check_or_make_target` at its canonical budget (one more than the
selector length). -/
def check_or_make_target (cm : Bool) (tree : XNode) (xpath : String)
    (ns : List (String × String)) : Except String (XNode × Bool) :=
  comt (xpath.length + 1) cm tree xpath ns

/-- `ensure_xpath_exists(module, tree, xpath, namespaces)`: if the selector
already resolves to a node, report `changed = false`; otherwise synthesize
it. -/
def ensure_xpath_exists (cm : Bool) (tree : XNode) (xpath : String)
    (ns : List (String × String)) : Except String (XNode × Bool) :=
  if is_node tree xpath then Except.ok (tree, false)
  else check_or_make_target cm tree xpath ns

/-! ## Removal -/

/-- The wrapped failure message of `delete_xpath_target`'s `except` clause. -/
def deleteFailMsg (xpath : String) : String :=
  "Couldn't delete xpath target: " ++ xpath

/-- `delete_xpath_target(module, tree, xpath, namespaces)`: iterate the match
snapshot; outside check mode, pop an attribute match from its owner's
mapping, or detach an element match from its parent; any structural failure
(missing key, parentless root, an attribute treated as an element) is the
fatal wrapped exception.  On success the source always finishes with
`changed=True`, even when the selector matched nothing. -/
def delete_xpath_target (cm : Bool) (tree : XNode) (xpath : String) :
    Except String (XNode × Bool) := do
  let results := evaluate tree xpath
  let tree' ← results.foldlM (fun t r =>
    if cm then Except.ok t
    else if is_attribute t xpath then
      match r with
      | XResult.attr owner name _ =>
        (match getAtPath t owner with
         | some el =>
           if (lookupAttr el.attrib name).isSome then
             Except.ok (updateAtPath t owner (fun m => m.withAttrib (removeAttrKV m.attrib name)))
           else Except.error (deleteFailMsg xpath)
         | Option.none => Except.error (deleteFailMsg xpath))
      | XResult.elem _ => Except.error (deleteFailMsg xpath)
    else if is_node t xpath then
      match r with
      | XResult.elem p =>
        (match p.getLast? with
         | some i =>
           (match getAtPath t p.dropLast with
            | some _ =>
              Except.ok (updateAtPath t p.dropLast
                (fun m => m.withChildren (m.children.eraseIdx i)))
            | Option.none => Except.error (deleteFailMsg xpath))
         | Option.none => Except.error (deleteFailMsg xpath))
      | XResult.attr _ _ _ => Except.error (deleteFailMsg xpath)
    else Except.ok t) tree
  Except.ok (tree', true)

/-! ## The Children Reconciler (replace mode) -/

/-- `replace_children_of(children, match)`: drop every existing child of the
match, then extend it with the new children. -/
def replace_children_of (children : List XNode) (m : XNode) : XNode :=
  m.withChildren children

/-- The body of `set_target_children_inner`'s per-match loop: when the child
counts agree, scan positionally for a serialized difference and replace (and
mark changed) at the first one; when they disagree, replace and mark changed
unconditionally; replacement itself is suppressed in check mode. -/
def setChildrenStep (cm : Bool) (children : List XNode) (childrenS : List String)
    (m : XNode) : XNode × Bool :=
  if m.children.length = children.length then
    if (m.children.zip childrenS).any (fun pr => tostring pr.1 != pr.2) then
      ((if cm then m else replace_children_of children m), true)
    else (m, false)
  else ((if cm then m else replace_children_of children m), true)

/-- `set_target_children_inner(module, tree, xpath, namespaces, children,
in_type)` over the already-built desired child nodes (the conversion of raw
specs into nodes is the external Node Builder of spec §6); their serialized
forms are computed once, up front, and each match is reconciled in turn.  A
non-element match would crash the source's `match.getchildren()` call. -/
def set_target_children_inner (cm : Bool) (tree : XNode) (xpath : String)
    (children : List XNode) : Except String (XNode × Bool) :=
  let matchList := evaluate tree xpath
  let childrenS := children.map tostring
  matchList.foldlM (fun (st : XNode × Bool) r =>
    match r with
    | XResult.elem p =>
      (match getAtPath st.1 p with
       | some m =>
         let res := setChildrenStep cm children childrenS m
         Except.ok (updateAtPath st.1 p (fun _ => res.1), st.2 || res.2)
       | Option.none => Except.error "stale match path")
    | XResult.attr _ _ _ => Except.error "AttributeError: getchildren") (tree, false)

/-! ## Generic list lemmas -/

theorem findSome_mem {α β : Type} {f : α → Option β} :
    ∀ {l : List α} {b : β}, l.findSome? f = some b → ∃ a ∈ l, f a = some b := by
  intro l
  induction l with
  | nil => intro b h; simp [List.findSome?] at h
  | cons a as ih =>
    intro b h
    rw [List.findSome?] at h
    cases hfa : f a with
    | some b' =>
      rw [hfa] at h
      exact ⟨a, List.mem_cons_self a as, by simp_all⟩
    | none =>
      rw [hfa] at h
      obtain ⟨a', ha', hfa'⟩ := ih h
      exact ⟨a', List.mem_cons_of_mem a ha', hfa'⟩

theorem foldlM_congr {α β : Type} {m : Type → Type} [Monad m]
    {f g : β → α → m β} :
    ∀ {l : List α} {b : β}, (∀ b' a, a ∈ l → f b' a = g b' a) →
      l.foldlM f b = l.foldlM g b := by
  intro l
  induction l with
  | nil => intro b _; rfl
  | cons a as ih =>
    intro b h
    simp only [List.foldlM_cons]
    rw [h b a (List.mem_cons_self a as)]
    have : (fun b' => List.foldlM f b' as) = (fun b' => List.foldlM g b' as) := by
      funext b'
      exact ih (fun b'' a'' ha'' => h b'' a'' (List.mem_cons_of_mem a ha''))
    rw [this]

theorem length_dropWhile_le' {p : Char → Bool} :
    ∀ l : List Char, (l.dropWhile p).length ≤ l.length := by
  intro l
  induction l with
  | nil => simp [List.dropWhile]
  | cons c cs ih =>
    rw [List.dropWhile]
    cases p c
    · simp
    · simp; omega

theorem dropWhile_eq_of_length {p : Char → Bool} :
    ∀ l : List Char, (l.dropWhile p).length = l.length → l.dropWhile p = l := by
  intro l
  induction l with
  | nil => simp [List.dropWhile]
  | cons c cs ih =>
    rw [List.dropWhile]
    cases p c with
    | false => simp
    | true =>
      simp only []
      intro h
      have := length_dropWhile_le' (p := p) cs
      simp [List.length_cons] at h
      omega

theorem pyStrip_length_le (l : List Char) : (pyStrip l).length ≤ l.length := by
  unfold pyStrip
  have h1 := length_dropWhile_le' (p := isPySpace) l
  have h2 := length_dropWhile_le' (p := isPySpace) (l.dropWhile isPySpace).reverse
  simp only [List.length_reverse] at *
  omega

theorem pyStrip_ne_length_lt {l : List Char} (h : pyStrip l ≠ l) :
    (pyStrip l).length < l.length := by
  rcases Nat.lt_or_ge (pyStrip l).length l.length with hlt | hge
  · exact hlt
  · exfalso
    apply h
    have hle := pyStrip_length_le l
    have heq : (pyStrip l).length = l.length := Nat.le_antisymm hle hge
    unfold pyStrip at heq ⊢
    have h1 := length_dropWhile_le' (p := isPySpace) l
    have h2 := length_dropWhile_le' (p := isPySpace) (l.dropWhile isPySpace).reverse
    simp only [List.length_reverse] at heq h2
    have e1 : (l.dropWhile isPySpace).length = l.length := by omega
    have e2 : (((l.dropWhile isPySpace).reverse).dropWhile isPySpace).length
        = ((l.dropWhile isPySpace).reverse).length := by
      simp only [List.length_reverse]; omega
    rw [dropWhile_eq_of_length _ e2,
        List.reverse_reverse, dropWhile_eq_of_length _ e1]

theorem splitAnd_mem_length (l : List Char) :
    ∀ p ∈ splitAnd l, p.length ≤ l.length := by
  induction l using splitAnd.induct with
  | case1 =>
    intro p hp
    simp only [splitAnd, List.mem_singleton] at hp
    simp [hp]
  | case2 rest ih =>
    intro p hp
    rw [show splitAnd (' ' :: 'a' :: 'n' :: 'd' :: ' ' :: rest)
          = [] :: splitAnd rest from rfl] at hp
    rcases List.mem_cons.mp hp with h | h
    · simp [h]
    · have := ih p h
      simp only [List.length_cons]
      omega
  | case3 c cs hne hsc ih =>
    intro p hp
    rw [splitAnd.eq_def] at hp
    split at hp
    · simp at hp; simp [hp]
    · rename_i rest heq
      exact absurd heq (by intro h; injection h with h1 h2; exact hne rest h1 h2)
    · rename_i c' cs' hne' heq
      injection heq with hc hcs
      subst hc; subst hcs
      rw [hsc] at hp
      simp only [List.mem_singleton] at hp
      simp [hp]
  | case4 c cs hne h t hsc ih =>
    intro p hp
    rw [splitAnd.eq_def] at hp
    split at hp
    · simp at hp; simp [hp]
    · rename_i rest heq
      exact absurd heq (by intro hh; injection hh with h1 h2; exact hne rest h1 h2)
    · rename_i c' cs' hne' heq
      injection heq with hc hcs
      subst hc; subst hcs
      rw [hsc] at hp
      rcases List.mem_cons.mp hp with hh | hh
      · subst hh
        have hm : h ∈ splitAnd cs := by rw [hsc]; exact List.mem_cons_self _ _
        have := ih h hm
        simp only [List.length_cons]
        omega
      · have hm : p ∈ splitAnd cs := by rw [hsc]; exact List.mem_cons_of_mem _ hh
        have := ih p hm
        simp only [List.length_cons]
        omega

/-! ## Shape of a successful grammar match -/

theorem splitsDesc_eq : ∀ {s a t : List Char},
    (a, t) ∈ splitsDesc s → s = a ++ '/' :: t := by
  intro s
  induction s with
  | nil => intro a t h; simp [splitsDesc] at h
  | cons c cs ih =>
    intro a t h
    simp only [splitsDesc, List.mem_append] at h
    rcases h with h | h
    · obtain ⟨p, hp, hpe⟩ := List.mem_map.mp h
      obtain ⟨p1, p2⟩ := p
      injection hpe with h1 h2
      subst h2
      have := ih hp
      subst this
      rw [← h1]
      simp
    · by_cases hc : c = '/'
      · rw [if_pos hc] at h
        simp only [List.mem_singleton, Prod.mk.injEq] at h
        obtain ⟨h1, h2⟩ := h
        subst h1; subst h2; subst hc
        simp
      · rw [if_neg hc] at h
        simp at h

theorem reMatch_shape {tf : List Char → Option (String × EoaValue)}
    {s a : List Char} {seg : String × EoaValue}
    (h : reMatch tf s = some (a, seg)) :
    ∃ t, s = a ++ '/' :: t ∧ tf t = some seg := by
  unfold reMatch at h
  obtain ⟨p, hp, hfp⟩ := findSome_mem h
  obtain ⟨p1, p2⟩ := p
  have hmem : (p1, p2) ∈ splitsDesc s := (List.mem_filter.mp hp).1
  cases htf : tf p2 with
  | none => rw [htf] at hfp; simp at hfp
  | some seg' =>
    rw [htf] at hfp
    simp only [Option.map_some] at hfp
    injection hfp with hfp
    injection hfp with h1 h2
    subst h1; subst h2
    exact ⟨p2, splitsDesc_eq hmem, htf⟩

theorem reMatch_prefix_lt {tf : List Char → Option (String × EoaValue)}
    {s a : List Char} {seg : String × EoaValue}
    (h : reMatch tf s = some (a, seg)) : a.length < s.length := by
  obtain ⟨t, hs, _⟩ := reMatch_shape h
  subst hs
  simp only [List.length_append, List.length_cons]
  omega

/-- Values of the six trailing-segment matchers: only the subscripted rule
produces a predicate list. -/
theorem tailSimpleLast_not_list {t : List Char} {seg : String × EoaValue}
    (h : tailSimpleLast t = some seg) : ∀ preds, seg.2 ≠ EoaValue.list preds := by
  simp only [tailSimpleLast] at h
  split at h
  · injection h with h; subst h; simp
  · simp at h

theorem tailSimpleLastEqValue_not_list {t : List Char} {seg : String × EoaValue}
    (h : tailSimpleLastEqValue t = some seg) : ∀ preds, seg.2 ≠ EoaValue.list preds := by
  simp only [tailSimpleLastEqValue] at h
  split at h
  · injection h with h; subst h; simp
  · simp at h

theorem tailSimpleAttrLast_not_list {t : List Char} {seg : String × EoaValue}
    (h : tailSimpleAttrLast t = some seg) : ∀ preds, seg.2 ≠ EoaValue.list preds := by
  simp only [tailSimpleAttrLast] at h
  split at h
  · split at h
    · injection h with h; subst h; simp
    · simp at h
  · simp at h

theorem tailSimpleAttrLastEqValue_not_list {t : List Char} {seg : String × EoaValue}
    (h : tailSimpleAttrLastEqValue t = some seg) : ∀ preds, seg.2 ≠ EoaValue.list preds := by
  simp only [tailSimpleAttrLastEqValue] at h
  split at h
  · split at h
    · split at h
      · injection h with h; subst h; simp
      · simp at h
    · simp at h
  · simp at h

theorem tailOnlyEqValue_not_list {t : List Char} {seg : String × EoaValue}
    (h : tailOnlyEqValue t = some seg) : ∀ preds, seg.2 ≠ EoaValue.list preds := by
  simp only [tailOnlyEqValue] at h
  split at h
  · injection h with h; subst h; simp
  · simp at h

theorem isIdent_ne_nil {l : List Char} (h : isIdent l = true) : l ≠ [] := by
  intro hl; subst hl; simp [isIdent] at h

theorem isNsIdent_ne_nil {l : List Char} (h : isNsIdent l = true) : l ≠ [] := by
  intro hl; subst hl
  simp [isNsIdent, isIdent, List.dropWhile] at h

/-- A successful subscripted-rule match bounds every predicate: the trailing
text `t` is `name ++ "[" ++ content ++ "]"` and each predicate comes from a
`strip`ped `" and "`-chunk of `content`. -/
theorem tailSubLast_pred_length {t : List Char} {e : String} {preds : List String}
    (h : tailSubLast t = some (e, EoaValue.list preds)) :
    ∀ sub ∈ preds, sub.length + 3 ≤ t.length := by
  intro sub hsub
  simp only [tailSubLast] at h
  split at h
  · rename_i r2 heq
    split at h
    · rename_i hguard
      injection h with h
      injection h with h1 h2
      have hpreds : preds = (splitAnd r2.dropLast).map (fun p => String.mk (pyStrip p)) := by
        injection h2 with hh; exact hh.symm
      rw [hpreds] at hsub
      obtain ⟨p, hp, hpe⟩ := List.mem_map.mp hsub
      have hple := splitAnd_mem_length _ p hp
      have hsl : sub.length = (pyStrip p).length := by
        rw [← hpe]; rfl
      have hstrip := pyStrip_length_le p
      -- t = takeWhile ++ dropWhile, dropWhile = '[' :: r2
      have ht : t = t.takeWhile (fun c => c != '[') ++ '[' :: r2 := by
        conv_lhs => rw [← List.takeWhile_append_dropWhile (p := fun c => c != '[') (l := t)]
        rw [heq]
      have hguard' : isNsIdent (t.takeWhile (fun c => c != '[')) = true := by
        simp only [Bool.and_eq_true] at hguard
        exact hguard.1.1
      have hne := isNsIdent_ne_nil hguard'
      have hlen1 : 1 ≤ (t.takeWhile (fun c => c != '[')).length := by
        cases hh : t.takeWhile (fun c => c != '[') with
        | nil => exact absurd hh hne
        | cons x xs => simp
      have hr2 : r2 ≠ [] := by
        simp only [Bool.and_eq_true, beq_iff_eq] at hguard
        intro hr; rw [hr] at hguard
        simp at hguard
      have hr2len : r2.length = r2.dropLast.length + 1 := by
        cases hr : r2 with
        | nil => exact absurd hr hr2
        | cons x xs => simp [List.length_dropLast]
      have htlen : t.length = (t.takeWhile (fun c => c != '[')).length + 1 + r2.length := by
        conv_lhs => rw [ht]
        simp [List.length_append]
        omega
      omega
    · simp at h
  · simp at h

/-! ## Length facts about `split_xpath_last` -/

theorem string_mk_length (l : List Char) : (String.mk l).length = l.length := rfl

theorem string_length_data (x : String) : x.length = x.data.length := rfl

theorem string_mk_ne {l : List Char} {x : String} (h : String.mk l ≠ x) : l ≠ x.data := by
  intro he
  apply h
  cases x
  subst he
  rfl

/-- Everything the later theorems need about one call of `split_xpath_last`:
at most one segment is produced; when a segment is produced the prefix is
strictly shorter than the selector; when the prefix differs from the selector
it is strictly shorter (covering the rule-free `strip` case); and every
predicate of a subscripted segment gives a strictly shorter `"./"`-prefixed
sub-selector. -/
theorem split_master (x : String) :
    (split_xpath_last x).2.length ≤ 1
  ∧ ((split_xpath_last x).2 ≠ [] → (split_xpath_last x).1.length < x.length)
  ∧ ((split_xpath_last x).1 ≠ x → (split_xpath_last x).1.length < x.length)
  ∧ (∀ eoa preds sub, (eoa, EoaValue.list preds) ∈ (split_xpath_last x).2 →
      sub ∈ preds → ("./" ++ sub).length < x.length) := by
  have hstrip : (pyStrip x.data).length ≤ x.data.length := pyStrip_length_le _
  simp only [split_xpath_last]
  split
  case _ r heq =>
    obtain ⟨a, seg⟩ := r
    rw [re_splitSimpleLast] at heq
    have hlt := reMatch_prefix_lt heq
    obtain ⟨t, hs, htf⟩ := reMatch_shape heq
    refine ⟨by simp, fun _ => ?_, fun _ => ?_, ?_⟩
    · simp only [string_mk_length, string_length_data]; omega
    · simp only [string_mk_length, string_length_data]; omega
    · intro eoa preds sub hmem hsub
      simp only [List.mem_singleton] at hmem
      subst hmem
      exact absurd rfl (tailSimpleLast_not_list htf preds)
  case _ hn1 =>
  split
  case _ r heq =>
    obtain ⟨a, seg⟩ := r
    rw [re_splitSimpleLastEqValue] at heq
    have hlt := reMatch_prefix_lt heq
    obtain ⟨t, hs, htf⟩ := reMatch_shape heq
    refine ⟨by simp, fun _ => ?_, fun _ => ?_, ?_⟩
    · simp only [string_mk_length, string_length_data]; omega
    · simp only [string_mk_length, string_length_data]; omega
    · intro eoa preds sub hmem hsub
      simp only [List.mem_singleton] at hmem
      subst hmem
      exact absurd rfl (tailSimpleLastEqValue_not_list htf preds)
  case _ hn2 =>
  split
  case _ r heq =>
    obtain ⟨a, seg⟩ := r
    rw [re_splitSimpleAttrLast] at heq
    have hlt := reMatch_prefix_lt heq
    obtain ⟨t, hs, htf⟩ := reMatch_shape heq
    refine ⟨by simp, fun _ => ?_, fun _ => ?_, ?_⟩
    · simp only [string_mk_length, string_length_data]; omega
    · simp only [string_mk_length, string_length_data]; omega
    · intro eoa preds sub hmem hsub
      simp only [List.mem_singleton] at hmem
      subst hmem
      exact absurd rfl (tailSimpleAttrLast_not_list htf preds)
  case _ hn3 =>
  split
  case _ r heq =>
    obtain ⟨a, seg⟩ := r
    rw [re_splitSimpleAttrLastEqValue] at heq
    have hlt := reMatch_prefix_lt heq
    obtain ⟨t, hs, htf⟩ := reMatch_shape heq
    refine ⟨by simp, fun _ => ?_, fun _ => ?_, ?_⟩
    · simp only [string_mk_length, string_length_data]; omega
    · simp only [string_mk_length, string_length_data]; omega
    · intro eoa preds sub hmem hsub
      simp only [List.mem_singleton] at hmem
      subst hmem
      exact absurd rfl (tailSimpleAttrLastEqValue_not_list htf preds)
  case _ hn4 =>
  split
  case _ r heq =>
    obtain ⟨a, seg⟩ := r
    rw [re_splitSubLast] at heq
    have hlt := reMatch_prefix_lt heq
    obtain ⟨t, hs, htf⟩ := reMatch_shape heq
    refine ⟨by simp, fun _ => ?_, fun _ => ?_, ?_⟩
    · simp only [string_mk_length, string_length_data]; omega
    · simp only [string_mk_length, string_length_data]; omega
    · intro eoa preds sub hmem hsub
      simp only [List.mem_singleton] at hmem
      subst hmem
      have hb := tailSubLast_pred_length htf sub hsub
      have hslen : (pyStrip x.data).length = a.length + 1 + t.length := by
        rw [hs]; simp [List.length_append]; omega
      have hd : ("./" ++ sub).data = '.' :: '/' :: sub.data := by cases sub; rfl
      have happ : ("./" ++ sub).length = sub.data.length + 2 := by
        rw [string_length_data, hd]; simp
      rw [happ, string_length_data]
      simp only [string_length_data] at hb
      omega
  case _ hn5 =>
  split
  case _ r heq =>
    obtain ⟨a, seg⟩ := r
    rw [re_splitOnlyEqValue] at heq
    have hlt := reMatch_prefix_lt heq
    obtain ⟨t, hs, htf⟩ := reMatch_shape heq
    refine ⟨by simp, fun _ => ?_, fun _ => ?_, ?_⟩
    · simp only [string_mk_length, string_length_data]; omega
    · simp only [string_mk_length, string_length_data]; omega
    · intro eoa preds sub hmem hsub
      simp only [List.mem_singleton] at hmem
      subst hmem
      exact absurd rfl (tailOnlyEqValue_not_list htf preds)
  case _ hn6 =>
    refine ⟨by simp, by simp, fun hne => ?_, by simp⟩
    have : pyStrip x.data ≠ x.data := string_mk_ne hne
    have := pyStrip_ne_length_lt this
    simp only [string_mk_length, string_length_data]
    omega

/-! ## The recursion budget of `check_or_make_target` is immaterial -/

theorem except_bind_ok {α β : Type} (a : α) (k : α → Except String β) :
    (Except.ok a >>= k) = k a := rfl

theorem except_bind_error {α β : Type} (e : String) (k : α → Except String β) :
    ((Except.error e : Except String α) >>= k) = Except.error e := rfl

/-- `applyChange` only consults the recursive synthesizer on `"./"`-prefixed
predicate sub-selectors of its change, so two recursion functions agreeing
there give identical results. -/
theorem applyChange_congr {r₁ r₂ : XNode → String → Except String (XNode × Bool)}
    {cm : Bool} {inner : String} {ns : List (String × String)}
    {st : XNode × Bool} {ch : String × EoaValue}
    (h : ∀ t sub, sub ∈ chPreds ch → r₁ t ("./" ++ sub) = r₂ t ("./" ++ sub)) :
    applyChange r₁ cm inner ns st ch = applyChange r₂ cm inner ns st ch := by
  unfold applyChange
  split
  · rfl
  · split
    · rfl
    · split
      · -- the subscripted-element branch, the only one that recurses
        cases hns : nsnameToClark (ch.1.drop 1) ns with
        | error e => rfl
        | ok clark =>
          simp only [except_bind_ok]
          have hfold : ∀ (t : XNode),
              (chPreds ch).foldlM
                  (fun nk sub => Except.map Prod.fst (r₁ nk ("./" ++ sub))) t
                = (chPreds ch).foldlM
                  (fun nk sub => Except.map Prod.fst (r₂ nk ("./" ++ sub))) t := by
            intro t
            exact foldlM_congr (fun nk sub hsub => by rw [h nk sub hsub])
          have houter :
              (elemPaths (evaluate st.1 inner)).foldlM (fun t p => do
                  let nk' ← (chPreds ch).foldlM
                    (fun nk sub => Except.map Prod.fst (r₁ nk ("./" ++ sub)))
                    (makeElement clark)
                  Except.ok (if cm then t else updateAtPath t p (appendChild nk'))) st.1
              = (elemPaths (evaluate st.1 inner)).foldlM (fun t p => do
                  let nk' ← (chPreds ch).foldlM
                    (fun nk sub => Except.map Prod.fst (r₂ nk ("./" ++ sub)))
                    (makeElement clark)
                  Except.ok (if cm then t else updateAtPath t p (appendChild nk'))) st.1 := by
            exact foldlM_congr (fun t p _ => by rw [hfold])
          rw [houter]
      · rfl

theorem comt_canon (f : Nat) :
    ∀ (cm : Bool) (tree : XNode) (x : String) (ns : List (String × String)),
      x.length < f → comt f cm tree x ns = check_or_make_target cm tree x ns := by
  induction f using Nat.strong_induction_on with
  | _ f ih =>
    intro cm tree x ns hf
    cases f with
    | zero => omega
    | succ f' =>
      rw [check_or_make_target]
      show comt (f' + 1) cm tree x ns = comt (x.length + 1) cm tree x ns
      rw [comt, comt]
      by_cases hpx : (split_xpath_last x).1 = x
      · rw [if_pos hpx, if_pos hpx]
      · rw [if_neg hpx, if_neg hpx]
        have hlt : (split_xpath_last x).1.length < x.length := (split_master x).2.2.1 hpx
        have e₁ : comt f' cm tree (split_xpath_last x).1 ns
            = check_or_make_target cm tree (split_xpath_last x).1 ns :=
          ih f' (by omega) cm tree _ ns (by omega)
        have e₂ : comt x.length cm tree (split_xpath_last x).1 ns
            = check_or_make_target cm tree (split_xpath_last x).1 ns :=
          ih x.length (by omega) cm tree _ ns (by omega)
        rw [e₁, e₂]
        cases hS : (if is_node tree (split_xpath_last x).1 then Except.ok (tree, false)
            else check_or_make_target cm tree (split_xpath_last x).1 ns) with
        | error e => rfl
        | ok tc =>
          show (if is_node tc.1 (split_xpath_last x).1
                && !(split_xpath_last x).2.isEmpty then
              (split_xpath_last x).2.foldlM
                (applyChange (fun t x' => comt f' cm t x' ns) cm (split_xpath_last x).1 ns) tc
            else Except.ok tc)
            = (if is_node tc.1 (split_xpath_last x).1
                && !(split_xpath_last x).2.isEmpty then
              (split_xpath_last x).2.foldlM
                (applyChange (fun t x' => comt x.length cm t x' ns) cm
                  (split_xpath_last x).1 ns) tc
            else Except.ok tc)
          by_cases hcond : (is_node tc.1 (split_xpath_last x).1
              && !(split_xpath_last x).2.isEmpty) = true
          · rw [if_pos hcond, if_pos hcond]
            apply foldlM_congr
            intro b ch hch
            apply applyChange_congr
            intro t sub hsub
            have hsublt : ("./" ++ sub).length < x.length := by
              cases hv : ch.2 with
              | list preds =>
                have hche : ch = (ch.1, EoaValue.list preds) := by
                  rw [← hv]
                have hm : (ch.1, EoaValue.list preds) ∈ (split_xpath_last x).2 := by
                  rw [← hche]; exact hch
                have hsub' : sub ∈ preds := by
                  rw [chPreds, hv] at hsub; exact hsub
                exact (split_master x).2.2.2 ch.1 preds sub hm hsub'
              | none => rw [chPreds, hv] at hsub; simp at hsub
              | str s => rw [chPreds, hv] at hsub; simp at hsub
            rw [ih f' (by omega) cm t _ ns (by omega),
                ih x.length (by omega) cm t _ ns (by omega)]
          · rw [if_neg hcond, if_neg hcond]

/-! ## Children-reconciler lemmas -/

theorem list_set_eq_get {α : Type} :
    ∀ {l : List α} {i : Nat} {c : α}, l.get? i = some c → l.set i c = l := by
  intro l
  induction l with
  | nil => intro i c h; simp [List.get?] at h
  | cons a as ih =>
    intro i c h
    cases i with
    | zero =>
      simp only [List.get?, Option.some.injEq] at h
      simp [List.set, h]
    | succ i =>
      simp only [List.get?] at h
      simp only [List.set]
      rw [ih h]

theorem updateAtPath_self :
    ∀ (p : List Nat) (t m : XNode), getAtPath t p = some m →
      updateAtPath t p (fun _ => m) = t := by
  intro p
  induction p with
  | nil =>
    intro t m h
    simp only [getAtPath, Option.some.injEq] at h
    simp [updateAtPath, h]
  | cons i p ih =>
    intro t m h
    rw [getAtPath] at h
    cases hg : t.children.get? i with
    | none => rw [hg] at h; exact absurd h (by simp)
    | some c =>
      rw [hg] at h
      dsimp only at h
      rw [updateAtPath, hg]
      dsimp only
      rw [ih c m h, list_set_eq_get hg]
      cases t; rfl

theorem zipAny_false_iff :
    ∀ (l : List XNode) (s : List String), l.length = s.length →
      ((((l.zip s).any fun pr => tostring pr.1 != pr.2) = false) ↔ l.map tostring = s) := by
  intro l
  induction l with
  | nil =>
    intro s h
    cases s with
    | nil => simp
    | cons d ds => simp at h
  | cons c cs ih =>
    intro s h
    cases s with
    | nil => simp at h
    | cons d ds =>
      simp only [List.zip_cons_cons, List.any_cons, List.map_cons,
        Bool.or_eq_false_iff, List.cons.injEq]
      have hlen : cs.length = ds.length := by
        simpa using h
      constructor
      · intro hh
        obtain ⟨h1, h2⟩ := hh
        refine ⟨by simpa [bne] using h1, (ih ds hlen).mp h2⟩
      · intro hh
        obtain ⟨h1, h2⟩ := hh
        exact ⟨by simp [bne, h1], (ih ds hlen).mpr h2⟩

theorem setChildrenStep_eq {cm : Bool} {children : List XNode} {m : XNode}
    (h : m.children.map tostring = children.map tostring) :
    setChildrenStep cm children (children.map tostring) m = (m, false) := by
  unfold setChildrenStep
  have hlen : m.children.length = children.length := by
    have := congrArg List.length h
    simpa using this
  rw [if_pos hlen]
  have hany : ((m.children.zip (children.map tostring)).any
      fun pr => tostring pr.1 != pr.2) = false :=
    (zipAny_false_iff _ _ (by simp [hlen])).mpr h
  rw [hany]
  simp

theorem setChildrenStep_ne {children : List XNode} {m : XNode}
    (h : m.children.map tostring ≠ children.map tostring) :
    setChildrenStep false children (children.map tostring) m
      = (replace_children_of children m, true) := by
  unfold setChildrenStep
  by_cases hlen : m.children.length = children.length
  · rw [if_pos hlen]
    have hany : ((m.children.zip (children.map tostring)).any
        fun pr => tostring pr.1 != pr.2) = true := by
      cases hc : ((m.children.zip (children.map tostring)).any
          fun pr => tostring pr.1 != pr.2) with
      | true => rfl
      | false => exact absurd ((zipAny_false_iff _ _ (by simp [hlen])).mp hc) h
    rw [hany]
    simp
  · rw [if_neg hlen]
    simp

/-! ## Documents used by the concrete runs -/

/-- The document `<a/>`. -/
def doc_a : XNode := .mk "a" [] Option.none []

/-- The document `<a><b c=""/></a>` — the result of ensuring `/a/b/@c` on
`<a/>`. -/
def doc_ab_c : XNode := .mk "a" [] Option.none [.mk "b" [("c", "")] Option.none []]

/-- The document `<a x=""/>`. -/
def doc_a_x : XNode := .mk "a" [("x", "")] Option.none []

/-- The document `<a>old</a>`. -/
def doc_a_old : XNode := .mk "a" [] (some "old") []

/-- The document `<a>new</a>`. -/
def doc_a_new : XNode := .mk "a" [] (some "new") []

/-- The document `<a b="v"/>`. -/
def doc_a_bv : XNode := .mk "a" [("b", "v")] Option.none []

/-- The document `<a><b/></a>`. -/
def doc_a_b : XNode := .mk "a" [] Option.none [.mk "b" [] Option.none []]

/-- The element `<x/>`. -/
def el_x : XNode := .mk "x" [] Option.none []

/-- The element `<y/>`. -/
def el_y : XNode := .mk "y" [] Option.none []

/-- The document `<r><x/><y/></r>`. -/
def doc_r_xy : XNode := .mk "r" [] Option.none [el_x, el_y]

/-! ## The claims -/

/-- C1: running `ensure_xpath_exists` twice with selector `"/a/b/@c"` starting
from `<a/>`.  The first run creates `<a><b c=""/></a>` and reports
`changed = true`.  The claim says the second run reports `changed = false`
and short-circuits at the existence check; instead the code reports
`changed = true` again (the tree is unchanged): `is_node` is false for an
attribute match, so `check_or_make_target` is re-entered, and the stored
empty-string attribute value compares unequal to the `None` sentinel of the
`AttributeExists` segment, so the attribute branch records a change on every
run. -/
theorem claim_C1_second_run_changed :
    ensure_xpath_exists false doc_a "/a/b/@c" [] = Except.ok (doc_ab_c, true)
  ∧ ensure_xpath_exists false doc_ab_c "/a/b/@c" [] = Except.ok (doc_ab_c, true) :=
  ⟨rfl, rfl⟩

/-- C2: `delete_xpath_target` on a selector that matches nothing still
reports `changed = true` (the source's `finish(..., changed=True)` runs
unconditionally after the loop), contradicting the claimed
`changed = false`; the attribute- and element-removal effects themselves are
as claimed. -/
theorem claim_C2_empty_match_reports_changed :
    delete_xpath_target false doc_a "/b" = Except.ok (doc_a, true)
  ∧ delete_xpath_target false doc_a_bv "/a/@b" = Except.ok (doc_a, true)
  ∧ delete_xpath_target false doc_a_b "/a/b" = Except.ok (doc_a, true) :=
  ⟨rfl, rfl, rfl⟩

/-- C3: the dry-run verdict differs from the real verdict on `"/a/@x"`
against `<a/>`: the real run sets the attribute and reports
`changed = true`, but in check mode the attribute branch guards
`changed = changed or changing` behind `not module.check_mode`, so the
dry run reports `changed = false`. -/
theorem claim_C3_checkmode_verdict_differs :
    ensure_xpath_exists false doc_a "/a/@x" [] = Except.ok (doc_a_x, true)
  ∧ ensure_xpath_exists true doc_a "/a/@x" [] = Except.ok (doc_a, false) :=
  ⟨rfl, rfl⟩

/-- C4: the text-value branch of `check_or_make_target` has no check-mode
guard: with the check-mode flag set, selector `"./text()='new'"` against
`<a>old</a>` still rewrites the tree's text to `"new"`. -/
theorem claim_C4_checkmode_writes_text :
    check_or_make_target true doc_a_old "./text()='new'" []
      = Except.ok (doc_a_new, true) :=
  rfl

/-- C5, counterexample: on the selector `" x"` no grammar rule fires, yet
`split_xpath_last` does not return the original selector unchanged — it
returns the `strip`ped form `"x"` as the prefix. -/
theorem claim_C5_counterexample :
    re_splitSimpleLast (pyStrip (" x" : String).data) = Option.none
  ∧ re_splitSimpleLastEqValue (pyStrip (" x" : String).data) = Option.none
  ∧ re_splitSimpleAttrLast (pyStrip (" x" : String).data) = Option.none
  ∧ re_splitSimpleAttrLastEqValue (pyStrip (" x" : String).data) = Option.none
  ∧ re_splitSubLast (pyStrip (" x" : String).data) = Option.none
  ∧ re_splitOnlyEqValue (pyStrip (" x" : String).data) = Option.none
  ∧ split_xpath_last " x" ≠ (" x", []) := by
  decide

/-- C5, amended: when no grammar rule classifies the trailing segment,
`split_xpath_last` returns the whitespace-`strip`ped selector as the prefix
together with an empty segment list; whenever that stripped form coincides
with the selector itself (in particular for any selector without surrounding
whitespace), `check_or_make_target` sees `prefix == selector` and fails
fatally with the decomposition error. -/
theorem claim_C5_amended (s : String)
    (h1 : re_splitSimpleLast (pyStrip s.data) = Option.none)
    (h2 : re_splitSimpleLastEqValue (pyStrip s.data) = Option.none)
    (h3 : re_splitSimpleAttrLast (pyStrip s.data) = Option.none)
    (h4 : re_splitSimpleAttrLastEqValue (pyStrip s.data) = Option.none)
    (h5 : re_splitSubLast (pyStrip s.data) = Option.none)
    (h6 : re_splitOnlyEqValue (pyStrip s.data) = Option.none) :
    split_xpath_last s = (String.mk (pyStrip s.data), [])
  ∧ (String.mk (pyStrip s.data) = s →
      ∀ (cm : Bool) (tree : XNode) (ns : List (String × String)),
        check_or_make_target cm tree s ns = Except.error (cantProcessMsg s tree)) := by
  have hsplit : split_xpath_last s = (String.mk (pyStrip s.data), []) := by
    simp only [split_xpath_last, h1, h2, h3, h4, h5, h6]
  refine ⟨hsplit, fun hss cm tree ns => ?_⟩
  rw [check_or_make_target, comt]
  rw [if_pos (by rw [hsplit, hss])]

/-- C5, witness: there is no whitespace in `"/"`, no rule classifies it, and
`check_or_make_target` fails fatally on it. -/
theorem claim_C5_amended_witness :
    split_xpath_last "/" = ("/", [])
  ∧ check_or_make_target false doc_a "/" []
      = Except.error (cantProcessMsg "/" doc_a) :=
  ⟨(claim_C5_amended "/" (by decide) (by decide) (by decide) (by decide)
      (by decide) (by decide)).1,
   (claim_C5_amended "/" (by decide) (by decide) (by decide) (by decide)
      (by decide) (by decide)).2 (by decide) false doc_a []⟩

/-- C6: whenever a grammar rule fires, the prefix `split_xpath_last` returns
is strictly shorter than the input selector; every `"./"`-prefixed predicate
sub-selector of a subscripted segment is strictly shorter as well; and
consequently the recursion of `check_or_make_target` terminates for every
input selector — any recursion budget beyond the selector's length computes
the same result. -/
theorem claim_C6_recursion_shrinks (x : String) :
    ((split_xpath_last x).2 ≠ [] → (split_xpath_last x).1.length < x.length)
  ∧ (∀ eoa preds sub, (eoa, EoaValue.list preds) ∈ (split_xpath_last x).2 →
      sub ∈ preds → ("./" ++ sub).length < x.length)
  ∧ (∀ (f : Nat) (cm : Bool) (tree : XNode) (ns : List (String × String)),
      x.length < f → comt f cm tree x ns = check_or_make_target cm tree x ns) :=
  ⟨(split_master x).2.1, (split_master x).2.2.2,
   fun f cm tree ns hf => comt_canon f cm tree x ns hf⟩

/-- C6, witness: on `"/a/b[@x='1' and @y='2']"` the prefix `"/a"` and the
sub-selector `"./@x='1'"` are both strictly shorter, and an oversized budget
agrees with the canonical one. -/
theorem claim_C6_witness :
    (split_xpath_last "/a/b[@x='1' and @y='2']").1.length
        < ("/a/b[@x='1' and @y='2']" : String).length
  ∧ ("./" ++ "@x='1'").length < ("/a/b[@x='1' and @y='2']" : String).length
  ∧ comt 30 false doc_a "/a/b[@x='1' and @y='2']" []
      = check_or_make_target false doc_a "/a/b[@x='1' and @y='2']" [] :=
  ⟨(claim_C6_recursion_shrinks "/a/b[@x='1' and @y='2']").1 (by decide),
   (claim_C6_recursion_shrinks "/a/b[@x='1' and @y='2']").2.1
      "/b" ["@x='1'", "@y='2'"] "@x='1'" (by decide) (by decide),
   (claim_C6_recursion_shrinks "/a/b[@x='1' and @y='2']").2.2 30 false doc_a []
      (by decide)⟩

/-- C7: `"/a/b[@x='1' and @y='2']"` decomposes into prefix `"/a"` and a
single subscripted-element segment (raw text `"/b"`, the source's encoding of
`SubscriptedElement("b", ...)`) whose predicate sequence, obtained by
splitting the bracket content on the literal `" and "`, is
`["@x='1'", "@y='2'"]`, each kept as a raw relative selector string. -/
theorem claim_C7_subscripted_decomposition :
    split_xpath_last "/a/b[@x='1' and @y='2']"
      = ("/a", [("/b", EoaValue.list ["@x='1'", "@y='2'"])]) := by
  decide

/-- C8: on `"/a/@b='v'"` none of the earlier rules
(`_re_splitSimpleLast`, `_re_splitSimpleLastEqValue`,
`_re_splitSimpleAttrLast`) fires — in particular it is never classified as a
bare `AttributeExists` — and the segment produced is the
`AttributeWithValue` pair `("@b", "v")`. -/
theorem claim_C8_attr_value_priority :
    re_splitSimpleLast (pyStrip ("/a/@b='v'" : String).data) = Option.none
  ∧ re_splitSimpleLastEqValue (pyStrip ("/a/@b='v'" : String).data) = Option.none
  ∧ re_splitSimpleAttrLast (pyStrip ("/a/@b='v'" : String).data) = Option.none
  ∧ split_xpath_last "/a/@b='v'" = ("/a", [("@b", EoaValue.str "v")]) := by
  decide

/-- C9: in replace mode, a single matched context node whose children agree
with the desired list positionally (same count, same canonical serialized
form at every index) is left untouched and the verdict is `changed = false`;
any disagreement — a count difference or any positional serialized
difference, reordering included — replaces all its children by the desired
list and yields `changed = true`. -/
theorem claim_C9_replace_positional (cm : Bool) (tree : XNode) (xpath : String)
    (children : List XNode) (p : List Nat) (m : XNode)
    (hev : evaluate tree xpath = [XResult.elem p])
    (hget : getAtPath tree p = some m) :
    (m.children.map tostring = children.map tostring →
      set_target_children_inner cm tree xpath children = Except.ok (tree, false))
  ∧ (m.children.map tostring ≠ children.map tostring →
      set_target_children_inner false tree xpath children
        = Except.ok (updateAtPath tree p (fun _ => replace_children_of children m), true)) := by
  constructor
  · intro hmap
    unfold set_target_children_inner
    rw [hev]
    simp only [List.foldlM_cons, List.foldlM_nil]
    rw [hget]
    dsimp only
    rw [setChildrenStep_eq hmap]
    dsimp only
    rw [updateAtPath_self p tree m hget]
    rfl
  · intro hmap
    unfold set_target_children_inner
    rw [hev]
    simp only [List.foldlM_cons, List.foldlM_nil]
    rw [hget]
    dsimp only
    rw [setChildrenStep_ne hmap]
    rfl

/-- C9, witness: replacing the children `[<x/>, <y/>]` of `<r>` with the same
pair is a no-op with `changed = false`; replacing them with the reordered
pair `[<y/>, <x/>]` rewrites the children and yields `changed = true`. -/
theorem claim_C9_witness :
    set_target_children_inner false doc_r_xy "/r" [el_x, el_y]
      = Except.ok (doc_r_xy, false)
  ∧ set_target_children_inner false doc_r_xy "/r" [el_y, el_x]
      = Except.ok (XNode.mk "r" [] Option.none [el_y, el_x], true) :=
  ⟨(claim_C9_replace_positional false doc_r_xy "/r" [el_x, el_y] [] doc_r_xy
      rfl rfl).1 (by decide),
   (claim_C9_replace_positional false doc_r_xy "/r" [el_y, el_x] [] doc_r_xy
      rfl rfl).2 (by decide)⟩

/-- C10: `split_xpath_last` never returns more than one
`(rawSegmentText, value)` pair: each grammar rule yields exactly one segment
and decomposition failure yields none. -/
theorem claim_C10_at_most_one_segment (x : String) :
    (split_xpath_last x).2.length ≤ 1 :=
  (split_master x).1

end AnsibleXml
